import Mathlib

/- A shallow embedding of the extension-manager CLI in src/main.py.

Paths are lists of path components.  The filesystem is modelled as a map
from paths to optional file contents; directories are not tracked
separately, because every operation of interest either reads a file,
writes a file, or deletes a file (mkdir with parents=True, exist_ok=True
never fails and touches no file).  Console output and the Typer and
Questionary layers are outside the model; the report of an operation is
captured by its result value, and typer.Exit(1) branches become error
results.  The model filesystem is total, so the generic OS-exception
paths of the source never fire. -/

namespace ExtMgr

/-- A filesystem path, as its list of components. -/
abbrev Path := List String

/-- The filesystem: file contents by path (none means no such file). -/
abbrev FS := Path → Option String

/-- Overwrite the file map at one path (shutil.copy2 writes some content,
unlink writes none). -/
def fsWrite (fs : FS) (p : Path) (v : Option String) : FS :=
  fun q => if q = p then v else fs q

/-- Ambient locations: the package directory holding main.py, and the
home directory of the invoking user. -/
structure Env where
  pkgDir : Path
  home : Path

/-- get_claude_dir from src/main.py (lines 41-47): project/.claude when a
project path is given, otherwise home/.claude. -/
def get_claude_dir (env : Env) (project_path : Option Path) : Path :=
  match project_path with
  | some p => p ++ [".claude"]
  | none => env.home ++ [".claude"]

/-- get_extensions_dir from src/main.py (lines 50-52): the extensions
directory next to main.py. -/
def get_extensions_dir (env : Env) : Path :=
  env.pkgDir ++ ["extensions"]

/-- Result of an install or uninstall call; the two typer.Exit(1)
branches become the two error results. -/
inductive InstallResult where
  | ok
  | notFound
  | alreadyInstalled
deriving DecidableEq

/-- install_extension from src/main.py (lines 220-254): check the source
file exists, check the target is absent or force is set, create parent
directories, copy the source content to the target. -/
def install_extension (env : Env) (ext_type name : String)
    (project_path : Option Path) (force : Bool) (fs : FS) :
    InstallResult × FS :=
  let source_file := get_extensions_dir env ++ [ext_type ++ "s", name ++ ".md"]
  match fs source_file with
  | none => (.notFound, fs)
  | some content =>
    let target_file := get_claude_dir env project_path ++ [ext_type ++ "s", name ++ ".md"]
    if (fs target_file).isSome && !force then
      (.alreadyInstalled, fs)
    else
      (.ok, fsWrite fs target_file (some content))

/-- uninstall_extension from src/main.py (lines 257-272): error when the
target file is absent, otherwise unlink it. -/
def uninstall_extension (env : Env) (ext_type name : String)
    (project_path : Option Path) (fs : FS) : InstallResult × FS :=
  let target_file := get_claude_dir env project_path ++ [ext_type ++ "s", name ++ ".md"]
  match fs target_file with
  | none => (.notFound, fs)
  | some _ => (.ok, fsWrite fs target_file none)

/-- check_extension_exists from src/main.py (lines 209-217). -/
def check_extension_exists (env : Env) (ext_type name : String)
    (project_path : Option Path) (fs : FS) : Bool :=
  (fs (get_claude_dir env project_path ++ [ext_type ++ "s", name ++ ".md"])).isSome

/-- Index of the last dot in the character list of a filename, if any. -/
def rfindDot : List Char → Option Nat
  | [] => none
  | c :: rest =>
    match rfindDot rest with
    | some i => some (i + 1)
    | none => if c = '.' then some 0 else none

/-- The suffix a pathlib PurePath gives a plain filename: name[i:] when the last dot sits
at index i with 0 < i < len - 1, otherwise the empty string. -/
def pySuffix (name : String) : String :=
  let cs := name.toList
  match rfindDot cs with
  | none => ""
  | some i => if 0 < i ∧ i + 1 < cs.length then String.mk (cs.drop i) else ""

/-- The stem a pathlib PurePath gives a plain filename: name[:i] when the last dot sits
at index i with 0 < i < len - 1, otherwise the whole name. -/
def pyStem (name : String) : String :=
  let cs := name.toList
  match rfindDot cs with
  | none => name
  | some i => if 0 < i ∧ i + 1 < cs.length then String.mk (cs.take i) else name

/-- One entry produced by iterating a directory: its filename and whether
it is a regular file. -/
structure DirEntry where
  name : String
  isFile : Bool
deriving DecidableEq

/-- The per-item test of list_available: workflows keep .yaml and .yml
files, agents and commands keep .md files. -/
def avail_match (ext_type : String) (item : DirEntry) : Bool :=
  if ext_type == "workflow" then
    item.isFile && (pySuffix item.name == ".yaml" || pySuffix item.name == ".yml")
  else
    item.isFile && pySuffix item.name == ".md"

/-- list_available from src/main.py (lines 170-189), applied to the
entries of extensions/{ext_type}s in directory iteration order (a missing
directory is the empty entry list). -/
def list_available (ext_type : String) (entries : List DirEntry) : List String :=
  entries.foldl
    (fun results item =>
      if avail_match ext_type item then results ++ [pyStem item.name] else results)
    []

/-- list_installed from src/main.py (lines 192-206), applied to the
entries of the claude-dir type directory located at dirPath, in directory
iteration order: keeps .md files, pairing each stem with its full path. -/
def list_installed (dirPath : Path) (entries : List DirEntry) :
    List (String × Path) :=
  entries.foldl
    (fun results item =>
      if item.isFile && pySuffix item.name == ".md" then
        results ++ [(pyStem item.name, dirPath ++ [item.name])]
      else results)
    []

/-- A parsed workflow YAML definition as install_workflow consumes it:
its level field compared to the string user, the name under the command
key when present, and the names under agents and helper_commands (an
absent key behaves as the empty list). -/
structure WorkflowDef where
  level_user : Bool
  command : Option String
  agents : List String
  helper_commands : List String

/-- The components install_workflow walks, in source order: the main
command, then the agents, then the helper commands, each tagged with its
extension type. -/
def workflow_components (w : WorkflowDef) : List (String × String) :=
  (match w.command with | some c => [("command", c)] | none => []) ++
    w.agents.map (fun a => ("agent", a)) ++
    w.helper_commands.map (fun c => ("command", c))

/-- The component loop of install_workflow (lines 1259-1306): for each
component whose source .md exists, call install_extension with the given
force flag; record type:name on success, clear the success flag on a
caught failure; skip components with no source file. -/
def run_components (env : Env) (target_path : Option Path) (force : Bool) :
    List (String × String) → FS → FS × List String × Bool
  | [], fs => (fs, [], true)
  | (ty, nm) :: rest, fs =>
    let src := get_extensions_dir env ++ [ty ++ "s", nm ++ ".md"]
    if (fs src).isSome then
      match install_extension env ty nm target_path force fs with
      | (.ok, fs1) =>
        let r := run_components env target_path force rest fs1
        (r.1, (ty ++ ":" ++ nm) :: r.2.1, r.2.2)
      | (_, fs1) =>
        let r := run_components env target_path force rest fs1
        (r.1, r.2.1, false)
    else
      run_components env target_path force rest fs

/-- install_workflow from src/main.py (lines 1227-1315).  The workflow
definition argument is the result of load_workflow_definition (none when
no YAML file was found or the file held no mapping).  A user-level value
in the definition overrides the project path; the final result is the
success flag and the installed-component list, with success forced to
false when no component was installed. -/
def install_workflow (env : Env) (wdef : Option WorkflowDef)
    (project_path : Option Path) (force : Bool) (fs : FS) :
    (Bool × List String) × FS :=
  match wdef with
  | none => ((false, []), fs)
  | some w =>
    let target_path := if w.level_user then none else project_path
    let r := run_components env target_path force (workflow_components w) fs
    if r.2.1.isEmpty then ((false, r.2.1), r.1) else ((r.2.2, r.2.1), r.1)

/-- The components install_workflow attempts (source file present) whose
install fails, in order: the instrumented mirror of the loop used to
state when the success flag holds. -/
def run_failures (env : Env) (target_path : Option Path) (force : Bool) :
    List (String × String) → FS → List String
  | [], _ => []
  | (ty, nm) :: rest, fs =>
    let src := get_extensions_dir env ++ [ty ++ "s", nm ++ ".md"]
    if (fs src).isSome then
      match install_extension env ty nm target_path force fs with
      | (.ok, fs1) => run_failures env target_path force rest fs1
      | (_, fs1) => (ty ++ ":" ++ nm) :: run_failures env target_path force rest fs1
    else
      run_failures env target_path force rest fs

/-- install_multiple_extensions from src/main.py (lines 1318-1368): the
same source and target checks as install_extension, inlined, with each
name appended to the successful or the failed list and the loop always
moving on to the next name. -/
def install_multiple_extensions (env : Env) (ext_type : String)
    (names : List String) (project_path : Option Path) (force : Bool)
    (fs : FS) : (List String × List String) × FS :=
  match names with
  | [] => (([], []), fs)
  | name :: rest =>
    let source_file := get_extensions_dir env ++ [ext_type ++ "s", name ++ ".md"]
    if (fs source_file).isNone then
      let r := install_multiple_extensions env ext_type rest project_path force fs
      ((r.1.1, name :: r.1.2), r.2)
    else
      let target_file := get_claude_dir env project_path ++ [ext_type ++ "s", name ++ ".md"]
      if (fs target_file).isSome && !force then
        let r := install_multiple_extensions env ext_type rest project_path force fs
        ((r.1.1, name :: r.1.2), r.2)
      else
        let fs1 := fsWrite fs target_file (fs source_file)
        let r := install_multiple_extensions env ext_type rest project_path force fs1
        ((name :: r.1.1, r.1.2), r.2)

/-- d is an ancestor-or-self of p: p extends the components of d. -/
def underDirB : Path → Path → Bool
  | [], _ => true
  | _ :: _, [] => false
  | a :: d, b :: p => a == b && underDirB d p

/-- Every path whose content differs between fs and fs1 lies under d. -/
def writesOnlyUnder (d : Path) (fs fs1 : FS) : Prop :=
  ∀ p, fs1 p ≠ fs p → underDirB d p = true

/-- No file under d differs between fs and fs1. -/
def preservesDir (d : Path) (fs fs1 : FS) : Prop :=
  ∀ p, underDirB d p = true → fs1 p = fs p

/-- A concrete environment for witnesses: package directory p, home h. -/
def envW : Env := ⟨["p"], ["h"]⟩

/-- A filesystem holding exactly the source file of extension x of type a
(content c); its install target under home is absent. -/
def fsW1 : FS := fun p =>
  if p = ["p", "extensions", "as", "x.md"] then some "c" else none

/-- A filesystem holding the source file of extension x of type a and an
installed copy with stale content d at user level. -/
def fsW2 : FS := fun p =>
  if p = ["p", "extensions", "as", "x.md"] then some "c"
  else if p = ["h", ".claude", "as", "x.md"] then some "d"
  else none

/-- A filesystem holding only an installed extension x of type a at user
level, with no source file. -/
def fsW3 : FS := fun p =>
  if p = ["h", ".claude", "as", "x.md"] then some "d" else none

theorem fsWrite_self (fs : FS) (p : Path) (v : Option String) :
    fsWrite fs p v p = v := by
  simp [fsWrite]

theorem fsWrite_ne (fs : FS) (p q : Path) (v : Option String) (h : q ≠ p) :
    fsWrite fs p v q = fs q := by
  simp [fsWrite, h]

/-- C1: when the source file of an extension exists and the target file
is absent or force is set, install_extension succeeds, copies the source
content byte-identically to target/.claude/{type}s/{name}.md, touches no
other file, and the target root is the given project path when one is
supplied and the home directory of the user otherwise. -/
theorem c1_install_copies_byte_identical (env : Env) (ty nm : String)
    (proj : Option Path) (force : Bool) (fs : FS) (c : String)
    (hsrc : fs (get_extensions_dir env ++ [ty ++ "s", nm ++ ".md"]) = some c)
    (htgt : fs (get_claude_dir env proj ++ [ty ++ "s", nm ++ ".md"]) = none ∨
      force = true) :
    (install_extension env ty nm proj force fs).1 = .ok ∧
    (install_extension env ty nm proj force fs).2
        (get_claude_dir env proj ++ [ty ++ "s", nm ++ ".md"]) = some c ∧
    (∀ p, p ≠ get_claude_dir env proj ++ [ty ++ "s", nm ++ ".md"] →
      (install_extension env ty nm proj force fs).2 p = fs p) ∧
    (∀ q, get_claude_dir env (some q) = q ++ [".claude"]) ∧
    get_claude_dir env none = env.home ++ [".claude"] := by
  have hcond :
      ((fs (get_claude_dir env proj ++ [ty ++ "s", nm ++ ".md"])).isSome
          && !force) = false := by
    rcases htgt with h | h
    · simp [h]
    · simp [h]
  refine ⟨?_, ?_, ?_, fun q => rfl, rfl⟩
  · simp [install_extension, hsrc, hcond]
  · simp [install_extension, hsrc, hcond, fsWrite]
  · intro p hp
    simp [install_extension, hsrc, hcond, fsWrite, hp]

/-- Witness for C1 on a concrete one-file filesystem. -/
theorem c1_witness :
    (install_extension envW "a" "x" none false fsW1).1 = .ok ∧
    (install_extension envW "a" "x" none false fsW1).2
        (get_claude_dir envW none ++ ["a" ++ "s", "x" ++ ".md"]) = some "c" ∧
    (∀ p, p ≠ get_claude_dir envW none ++ ["a" ++ "s", "x" ++ ".md"] →
      (install_extension envW "a" "x" none false fsW1).2 p = fsW1 p) ∧
    (∀ q, get_claude_dir envW (some q) = q ++ [".claude"]) ∧
    get_claude_dir envW none = envW.home ++ [".claude"] :=
  c1_install_copies_byte_identical envW "a" "x" none false fsW1 "c"
    (by decide) (Or.inl (by decide))

/-- C2: install_extension fails exactly when the source file is missing,
or the target file already exists while force is clear (the model
filesystem raises no exceptions, so no further failure case arises); in
every other case it succeeds and copies the source content onto the
target, touching no other file. -/
theorem c2_install_failure_iff (env : Env) (ty nm : String)
    (proj : Option Path) (force : Bool) (fs : FS) :
    ((install_extension env ty nm proj force fs).1 ≠ .ok ↔
      fs (get_extensions_dir env ++ [ty ++ "s", nm ++ ".md"]) = none ∨
      (fs (get_claude_dir env proj ++ [ty ++ "s", nm ++ ".md"]) ≠ none ∧
        force = false)) ∧
    ((install_extension env ty nm proj force fs).1 = .ok →
      (install_extension env ty nm proj force fs).2
          (get_claude_dir env proj ++ [ty ++ "s", nm ++ ".md"])
        = fs (get_extensions_dir env ++ [ty ++ "s", nm ++ ".md"]) ∧
      ∀ p, p ≠ get_claude_dir env proj ++ [ty ++ "s", nm ++ ".md"] →
        (install_extension env ty nm proj force fs).2 p = fs p) := by
  cases hs : fs (get_extensions_dir env ++ [ty ++ "s", nm ++ ".md"]) with
  | none =>
    constructor
    · simp [install_extension, hs]
    · intro h
      simp [install_extension, hs] at h
  | some c =>
    by_cases hb :
        ((fs (get_claude_dir env proj ++ [ty ++ "s", nm ++ ".md"])).isSome
          && !force) = true
    · have hb' := hb
      rw [Bool.and_eq_true, Option.isSome_iff_ne_none, Bool.not_eq_true'] at hb'
      constructor
      · simp [install_extension, hs, hb]
        exact hb'
      · intro h
        simp [install_extension, hs, hb] at h
    · have hb0 : ((fs (get_claude_dir env proj ++ [ty ++ "s", nm ++ ".md"])).isSome
          && !force) = false := by
        simpa using hb
      have hb' : ¬(fs (get_claude_dir env proj ++ [ty ++ "s", nm ++ ".md"]) ≠ none ∧
          force = false) := by
        intro ⟨h1, h2⟩
        rw [Bool.and_eq_true, Option.isSome_iff_ne_none, Bool.not_eq_true'] at hb
        exact hb ⟨h1, h2⟩
      constructor
      · simp [install_extension, hs, hb0, hb']
      · intro _
        constructor
        · simp [install_extension, hs, hb0, fsWrite]
        · intro p hp
          simp [install_extension, hs, hb0, fsWrite, hp]

/-- Witness for C2 on a concrete one-file filesystem. -/
theorem c2_witness :
    ((install_extension envW "a" "x" none false fsW1).1 ≠ .ok ↔
      fsW1 (get_extensions_dir envW ++ ["a" ++ "s", "x" ++ ".md"]) = none ∨
      (fsW1 (get_claude_dir envW none ++ ["a" ++ "s", "x" ++ ".md"]) ≠ none ∧
        false = false)) ∧
    ((install_extension envW "a" "x" none false fsW1).1 = .ok →
      (install_extension envW "a" "x" none false fsW1).2
          (get_claude_dir envW none ++ ["a" ++ "s", "x" ++ ".md"])
        = fsW1 (get_extensions_dir envW ++ ["a" ++ "s", "x" ++ ".md"]) ∧
      ∀ p, p ≠ get_claude_dir envW none ++ ["a" ++ "s", "x" ++ ".md"] →
        (install_extension envW "a" "x" none false fsW1).2 p = fsW1 p) :=
  c2_install_failure_iff envW "a" "x" none false fsW1

/-- C3: reinstalling an already installed extension without force reports
already-installed and leaves every file, in particular the content of
the target file, untouched. -/
theorem c3_reinstall_without_force_noop (env : Env) (ty nm : String)
    (proj : Option Path) (fs : FS)
    (hsrc : fs (get_extensions_dir env ++ [ty ++ "s", nm ++ ".md"]) ≠ none)
    (htgt : fs (get_claude_dir env proj ++ [ty ++ "s", nm ++ ".md"]) ≠ none) :
    (install_extension env ty nm proj false fs).1 = .alreadyInstalled ∧
    ∀ p, (install_extension env ty nm proj false fs).2 p = fs p := by
  obtain ⟨c, hc⟩ := Option.ne_none_iff_exists'.mp hsrc
  have hb : (fs (get_claude_dir env proj ++ [ty ++ "s", nm ++ ".md"])).isSome
      = true := by
    simp [Option.isSome_iff_ne_none, htgt]
  constructor
  · simp [install_extension, hc, hb]
  · intro p
    simp [install_extension, hc, hb]

/-- Witness for C3: source and stale installed copy both present. -/
theorem c3_witness :
    (install_extension envW "a" "x" none false fsW2).1 = .alreadyInstalled ∧
    ∀ p, (install_extension envW "a" "x" none false fsW2).2 p = fsW2 p :=
  c3_reinstall_without_force_noop envW "a" "x" none fsW2 (by decide) (by decide)

/-- C4: reinstalling an already installed extension with force succeeds
and overwrites the target file with the current source content, touching
no other file. -/
theorem c4_reinstall_force_overwrites (env : Env) (ty nm : String)
    (proj : Option Path) (fs : FS) (c : String)
    (hsrc : fs (get_extensions_dir env ++ [ty ++ "s", nm ++ ".md"]) = some c)
    (htgt : fs (get_claude_dir env proj ++ [ty ++ "s", nm ++ ".md"]) ≠ none) :
    (install_extension env ty nm proj true fs).1 = .ok ∧
    (install_extension env ty nm proj true fs).2
        (get_claude_dir env proj ++ [ty ++ "s", nm ++ ".md"]) = some c ∧
    ∀ p, p ≠ get_claude_dir env proj ++ [ty ++ "s", nm ++ ".md"] →
      (install_extension env ty nm proj true fs).2 p = fs p := by
  refine ⟨?_, ?_, ?_⟩
  · simp [install_extension, hsrc]
  · simp [install_extension, hsrc, fsWrite]
  · intro p hp
    simp [install_extension, hsrc, fsWrite, hp]

/-- Witness for C4: the stale content d is replaced by the source
content c. -/
theorem c4_witness :
    (install_extension envW "a" "x" none true fsW2).1 = .ok ∧
    (install_extension envW "a" "x" none true fsW2).2
        (get_claude_dir envW none ++ ["a" ++ "s", "x" ++ ".md"]) = some "c" ∧
    ∀ p, p ≠ get_claude_dir envW none ++ ["a" ++ "s", "x" ++ ".md"] →
      (install_extension envW "a" "x" none true fsW2).2 p = fsW2 p :=
  c4_reinstall_force_overwrites envW "a" "x" none fsW2 "c" (by decide) (by decide)

/-- C5: uninstalling a non-installed extension reports not-found and
changes nothing; uninstalling an installed one deletes exactly the target
file and nothing else. -/
theorem c5_uninstall_cases (env : Env) (ty nm : String)
    (proj : Option Path) (fs : FS) :
    (fs (get_claude_dir env proj ++ [ty ++ "s", nm ++ ".md"]) = none →
      (uninstall_extension env ty nm proj fs).1 = .notFound ∧
      ∀ p, (uninstall_extension env ty nm proj fs).2 p = fs p) ∧
    (fs (get_claude_dir env proj ++ [ty ++ "s", nm ++ ".md"]) ≠ none →
      (uninstall_extension env ty nm proj fs).1 = .ok ∧
      (uninstall_extension env ty nm proj fs).2
          (get_claude_dir env proj ++ [ty ++ "s", nm ++ ".md"]) = none ∧
      ∀ p, p ≠ get_claude_dir env proj ++ [ty ++ "s", nm ++ ".md"] →
        (uninstall_extension env ty nm proj fs).2 p = fs p) := by
  constructor
  · intro h
    constructor
    · simp [uninstall_extension, h]
    · intro p
      simp [uninstall_extension, h]
  · intro h
    obtain ⟨c, hc⟩ := Option.ne_none_iff_exists'.mp h
    refine ⟨?_, ?_, ?_⟩
    · simp [uninstall_extension, hc]
    · simp [uninstall_extension, hc, fsWrite]
    · intro p hp
      simp [uninstall_extension, hc, fsWrite, hp]

/-- Witness for C5, exercising both the absent-target and the
present-target branch. -/
theorem c5_witness :
    ((uninstall_extension envW "a" "x" none fsW1).1 = .notFound ∧
      ∀ p, (uninstall_extension envW "a" "x" none fsW1).2 p = fsW1 p) ∧
    ((uninstall_extension envW "a" "x" none fsW3).1 = .ok ∧
      (uninstall_extension envW "a" "x" none fsW3).2
          (get_claude_dir envW none ++ ["a" ++ "s", "x" ++ ".md"]) = none ∧
      ∀ p, p ≠ get_claude_dir envW none ++ ["a" ++ "s", "x" ++ ".md"] →
        (uninstall_extension envW "a" "x" none fsW3).2 p = fsW3 p) :=
  ⟨(c5_uninstall_cases envW "a" "x" none fsW1).1 (by decide),
    (c5_uninstall_cases envW "a" "x" none fsW3).2 (by decide)⟩

theorem foldl_append_eq_filter_map {α β : Type} (f : α → Bool) (g : α → β) :
    ∀ (l : List α) (acc : List β),
      l.foldl (fun r x => if f x then r ++ [g x] else r) acc
        = acc ++ (l.filter f).map g
  | [], acc => by simp
  | x :: l, acc => by
    by_cases h : f x = true
    · simp only [List.foldl_cons, h, if_true, List.filter_cons_of_pos h,
        List.map_cons, foldl_append_eq_filter_map f g l (acc ++ [g x])]
      simp
    · have h0 : f x = false := by simpa using h
      simp only [List.foldl_cons, h0, if_false, Bool.false_eq_true,
        List.filter_cons_of_neg h,
        foldl_append_eq_filter_map f g l acc]

/-- C6 counterexample: the listing functions apply no sort.  The same
two directory entries presented in two iteration orders yield two
differently ordered outputs, so the result is not a deterministically
sorted rendering of the stem set; in particular, for the iteration order
b.md, a.md the output is not sorted. -/
theorem c6_counterexample :
    list_available "agent" [⟨"b.md", true⟩, ⟨"a.md", true⟩] = ["b", "a"] ∧
    list_available "agent" [⟨"a.md", true⟩, ⟨"b.md", true⟩] = ["a", "b"] ∧
    (["b", "a"] : List String) ≠ ["a", "b"] := by decide

/-- C6 amended: listing returns exactly the stems of the matching files
(.md files for available agents and commands and for installed listings,
.yaml or .yml files for available workflows, each paired with its full
path in the installed case) in directory iteration order; no sorting is
applied. -/
theorem c6_listing_exact_stems (ty : String) (entries : List DirEntry)
    (dirPath : Path) :
    list_available ty entries
      = (entries.filter (avail_match ty)).map (fun e => pyStem e.name) ∧
    list_installed dirPath entries
      = (entries.filter (fun e => e.isFile && pySuffix e.name == ".md")).map
          (fun e => (pyStem e.name, dirPath ++ [e.name])) := by
  constructor
  · have h := foldl_append_eq_filter_map (avail_match ty)
      (fun e => pyStem e.name) entries []
    simpa [list_available] using h
  · have h := foldl_append_eq_filter_map
      (fun e : DirEntry => e.isFile && pySuffix e.name == ".md")
      (fun e => (pyStem e.name, dirPath ++ [e.name])) entries []
    simpa [list_installed] using h

theorem run_components_flag_iff (env : Env) (tp : Option Path) (force : Bool) :
    ∀ (l : List (String × String)) (fs : FS),
      (run_components env tp force l fs).2.2 = true ↔
        run_failures env tp force l fs = []
  | [], fs => by simp [run_components, run_failures]
  | (ty, nm) :: rest, fs => by
    simp only [run_components, run_failures]
    cases hs : fs (get_extensions_dir env ++ [ty ++ "s", nm ++ ".md"]) with
    | none =>
      simp only [hs, Option.isSome_none, Bool.false_eq_true, if_false]
      exact run_components_flag_iff env tp force rest fs
    | some c =>
      simp only [hs, Option.isSome_some, if_true]
      cases hins : install_extension env ty nm tp force fs with
      | mk res fs1 =>
        cases res with
        | ok => simpa using run_components_flag_iff env tp force rest fs1
        | notFound => simp
        | alreadyInstalled => simp

theorem run_components_sublist (env : Env) (tp : Option Path) (force : Bool) :
    ∀ (l : List (String × String)) (fs : FS),
      List.Sublist (run_components env tp force l fs).2.1
        (l.map (fun tn => tn.1 ++ ":" ++ tn.2))
  | [], fs => by simp [run_components]
  | (ty, nm) :: rest, fs => by
    simp only [run_components, List.map_cons]
    cases hs : fs (get_extensions_dir env ++ [ty ++ "s", nm ++ ".md"]) with
    | none =>
      simp only [hs, Option.isSome_none, Bool.false_eq_true, if_false]
      exact (run_components_sublist env tp force rest fs).cons _
    | some c =>
      simp only [hs, Option.isSome_some, if_true]
      cases hins : install_extension env ty nm tp force fs with
      | mk res fs1 =>
        cases res with
        | ok => exact (run_components_sublist env tp force rest fs1).cons₂ _
        | notFound => exact (run_components_sublist env tp force rest fs1).cons _
        | alreadyInstalled => exact (run_components_sublist env tp force rest fs1).cons _

/-- C7: on an existing workflow definition, install_workflow walks the
main command, every listed agent, and every listed helper command whose
source file exists through per-extension installs with the given force
flag; the component list it returns is drawn in order from those
components, and it returns success together with a non-empty component
list exactly when no attempted component install failed and at least one
component was installed. -/
theorem c7_workflow_success_iff (env : Env) (w : WorkflowDef)
    (proj : Option Path) (force : Bool) (fs : FS) :
    List.Sublist (install_workflow env (some w) proj force fs).1.2
      ((workflow_components w).map (fun tn => tn.1 ++ ":" ++ tn.2)) ∧
    (((install_workflow env (some w) proj force fs).1.1 = true ∧
        (install_workflow env (some w) proj force fs).1.2 ≠ []) ↔
      ((install_workflow env (some w) proj force fs).1.2 ≠ [] ∧
        run_failures env (if w.level_user then none else proj) force
          (workflow_components w) fs = [])) := by
  simp only [install_workflow]
  cases he : (run_components env (if w.level_user then none else proj) force
      (workflow_components w) fs).2.1.isEmpty
  · simp only [he, Bool.false_eq_true, if_false]
    have hne : (run_components env (if w.level_user then none else proj) force
        (workflow_components w) fs).2.1 ≠ [] := by
      intro h0
      rw [h0] at he
      simp at he
    constructor
    · exact run_components_sublist env _ force (workflow_components w) fs
    · constructor
      · intro ⟨h1, _⟩
        exact ⟨hne, (run_components_flag_iff env _ force (workflow_components w) fs).mp h1⟩
      · intro ⟨_, h2⟩
        exact ⟨(run_components_flag_iff env _ force (workflow_components w) fs).mpr h2, hne⟩
  · have h0 : (run_components env (if w.level_user then none else proj) force
        (workflow_components w) fs).2.1 = [] := by
      simpa [List.isEmpty_iff] using he
    simp only [he, if_true]
    constructor
    · rw [h0]
      exact List.nil_sublist _
    · simp [h0]

theorem underDirB_append (d r : Path) : underDirB d (d ++ r) = true := by
  induction d with
  | nil => rfl
  | cons a d ih => simp [underDirB, ih]

theorem underDirB_comparable :
    ∀ (p c e : Path), underDirB c p = true → underDirB e p = true →
      underDirB c e = true ∨ underDirB e c = true
  | _, [], _, _, _ => Or.inl rfl
  | _, _ :: _, [], _, _ => Or.inr rfl
  | [], _ :: _, _ :: _, h1, _ => by simp [underDirB] at h1
  | x :: p, a :: c, b :: e, h1, h2 => by
    simp only [underDirB, Bool.and_eq_true, beq_iff_eq] at h1 h2
    obtain ⟨rfl, h1'⟩ := h1
    obtain ⟨rfl, h2'⟩ := h2
    rcases underDirB_comparable p c e h1' h2' with h | h
    · exact Or.inl (by simp [underDirB, h])
    · exact Or.inr (by simp [underDirB, h])

theorem writesOnlyUnder_refl (d : Path) (fs : FS) : writesOnlyUnder d fs fs :=
  fun _ h => absurd rfl h

theorem writesOnlyUnder_trans {d : Path} {fs fs1 fs2 : FS}
    (h1 : writesOnlyUnder d fs fs1) (h2 : writesOnlyUnder d fs1 fs2) :
    writesOnlyUnder d fs fs2 := by
  intro p hp
  by_cases h : fs1 p = fs p
  · exact h2 p (fun he => hp (he.trans h))
  · exact h1 p h

theorem fsWrite_writesOnly {d : Path} (fs : FS) {tgt : Path}
    (v : Option String) (h : underDirB d tgt = true) :
    writesOnlyUnder d fs (fsWrite fs tgt v) := by
  intro p hp
  by_cases hq : p = tgt
  · subst hq
    exact h
  · simp [fsWrite, hq] at hp

theorem install_extension_writesOnly (env : Env) (ty nm : String)
    (proj : Option Path) (force : Bool) (fs : FS) :
    writesOnlyUnder (get_claude_dir env proj) fs
      (install_extension env ty nm proj force fs).2 := by
  cases hs : fs (get_extensions_dir env ++ [ty ++ "s", nm ++ ".md"]) with
  | none =>
    simp only [install_extension, hs]
    exact writesOnlyUnder_refl _ _
  | some c =>
    by_cases hb : ((fs (get_claude_dir env proj ++ [ty ++ "s", nm ++ ".md"])).isSome
        && !force) = true
    · simp only [install_extension, hs, hb, if_true]
      exact writesOnlyUnder_refl _ _
    · have hb0 : ((fs (get_claude_dir env proj ++ [ty ++ "s", nm ++ ".md"])).isSome
          && !force) = false := by simpa using hb
      simp only [install_extension, hs, hb0, Bool.false_eq_true, if_false]
      exact fsWrite_writesOnly fs _ (underDirB_append _ _)

theorem uninstall_extension_writesOnly (env : Env) (ty nm : String)
    (proj : Option Path) (fs : FS) :
    writesOnlyUnder (get_claude_dir env proj) fs
      (uninstall_extension env ty nm proj fs).2 := by
  cases hs : fs (get_claude_dir env proj ++ [ty ++ "s", nm ++ ".md"]) with
  | none =>
    simp only [uninstall_extension, hs]
    exact writesOnlyUnder_refl _ _
  | some c =>
    simp only [uninstall_extension, hs]
    exact fsWrite_writesOnly fs _ (underDirB_append _ _)

theorem run_components_writesOnly (env : Env) (tp : Option Path) (force : Bool) :
    ∀ (l : List (String × String)) (fs : FS),
      writesOnlyUnder (get_claude_dir env tp) fs (run_components env tp force l fs).1
  | [], fs => writesOnlyUnder_refl _ _
  | (ty, nm) :: rest, fs => by
    simp only [run_components]
    cases hs : fs (get_extensions_dir env ++ [ty ++ "s", nm ++ ".md"]) with
    | none =>
      simp only [hs, Option.isSome_none, Bool.false_eq_true, if_false]
      exact run_components_writesOnly env tp force rest fs
    | some c =>
      simp only [hs, Option.isSome_some, if_true]
      cases hins : install_extension env ty nm tp force fs with
      | mk res fs1 =>
        have hw : writesOnlyUnder (get_claude_dir env tp) fs fs1 := by
          have := install_extension_writesOnly env ty nm tp force fs
          rw [hins] at this
          exact this
        cases res with
        | ok =>
          exact writesOnlyUnder_trans hw (run_components_writesOnly env tp force rest fs1)
        | notFound =>
          exact writesOnlyUnder_trans hw (run_components_writesOnly env tp force rest fs1)
        | alreadyInstalled =>
          exact writesOnlyUnder_trans hw (run_components_writesOnly env tp force rest fs1)

theorem install_multiple_writesOnly (env : Env) (ty : String)
    (proj : Option Path) (force : Bool) :
    ∀ (names : List String) (fs : FS),
      writesOnlyUnder (get_claude_dir env proj) fs
        (install_multiple_extensions env ty names proj force fs).2
  | [], fs => writesOnlyUnder_refl _ _
  | name :: rest, fs => by
    simp only [install_multiple_extensions]
    by_cases hs : (fs (get_extensions_dir env ++ [ty ++ "s", name ++ ".md"])).isNone = true
    · simp only [hs, if_true]
      exact install_multiple_writesOnly env ty proj force rest fs
    · simp only [hs, Bool.false_eq_true, if_false]
      by_cases hb : ((fs (get_claude_dir env proj ++ [ty ++ "s", name ++ ".md"])).isSome
          && !force) = true
      · simp only [hb, if_true]
        exact install_multiple_writesOnly env ty proj force rest fs
      · have hb0 : ((fs (get_claude_dir env proj ++ [ty ++ "s", name ++ ".md"])).isSome
            && !force) = false := by simpa using hb
        simp only [hb0, Bool.false_eq_true, if_false]
        exact writesOnlyUnder_trans
          (fsWrite_writesOnly fs _ (underDirB_append _ _))
          (install_multiple_writesOnly env ty proj force rest _)

theorem preservesDir_of_writesOnly {c e : Path} {fs fs1 : FS}
    (hw : writesOnlyUnder c fs fs1)
    (h1 : underDirB e c = false) (h2 : underDirB c e = false) :
    preservesDir e fs fs1 := by
  intro p hp
  by_contra hne
  have hc : underDirB c p = true := hw p hne
  rcases underDirB_comparable p c e hc hp with h | h
  · rw [h2] at h
    exact Bool.false_ne_true h
  · rw [h1] at h
    exact Bool.false_ne_true h

theorem install_workflow_writesOnly (env : Env) (w : WorkflowDef)
    (proj : Option Path) (force : Bool) (fs : FS) :
    writesOnlyUnder (get_claude_dir env (if w.level_user then none else proj)) fs
      (install_workflow env (some w) proj force fs).2 := by
  simp only [install_workflow]
  cases he : (run_components env (if w.level_user then none else proj) force
      (workflow_components w) fs).2.1.isEmpty
  · simp only [he, Bool.false_eq_true, if_false]
    exact run_components_writesOnly env _ force (workflow_components w) fs
  · simp only [he, if_true]
    exact run_components_writesOnly env _ force (workflow_components w) fs

/-- C8: every path changed by install, uninstall, multi-install, or
workflow install lies under the chosen claude installation directory
(project/.claude, or home/.claude for user level and user-level
workflows); when neither that directory nor the bundled extensions
directory sits inside the other, no file under the extensions directory
is ever touched by any of these operations (the listing functions read a
directory and change nothing). -/
theorem c8_frame (env : Env) (ty nm : String) (proj : Option Path)
    (force : Bool) (fs : FS) (w : WorkflowDef) (names : List String)
    (hA : underDirB (get_extensions_dir env) (get_claude_dir env proj) = false)
    (hB : underDirB (get_claude_dir env proj) (get_extensions_dir env) = false)
    (hC : underDirB (get_extensions_dir env) (get_claude_dir env none) = false)
    (hD : underDirB (get_claude_dir env none) (get_extensions_dir env) = false) :
    writesOnlyUnder (get_claude_dir env proj) fs
      (install_extension env ty nm proj force fs).2 ∧
    writesOnlyUnder (get_claude_dir env proj) fs
      (uninstall_extension env ty nm proj fs).2 ∧
    writesOnlyUnder (get_claude_dir env proj) fs
      (install_multiple_extensions env ty names proj force fs).2 ∧
    writesOnlyUnder (get_claude_dir env (if w.level_user then none else proj)) fs
      (install_workflow env (some w) proj force fs).2 ∧
    preservesDir (get_extensions_dir env) fs
      (install_extension env ty nm proj force fs).2 ∧
    preservesDir (get_extensions_dir env) fs
      (uninstall_extension env ty nm proj fs).2 ∧
    preservesDir (get_extensions_dir env) fs
      (install_multiple_extensions env ty names proj force fs).2 ∧
    preservesDir (get_extensions_dir env) fs
      (install_workflow env (some w) proj force fs).2 := by
  have hwf := install_workflow_writesOnly env w proj force fs
  refine ⟨install_extension_writesOnly env ty nm proj force fs,
    uninstall_extension_writesOnly env ty nm proj fs,
    install_multiple_writesOnly env ty proj force names fs,
    hwf, ?_, ?_, ?_, ?_⟩
  · exact preservesDir_of_writesOnly
      (install_extension_writesOnly env ty nm proj force fs) hA hB
  · exact preservesDir_of_writesOnly
      (uninstall_extension_writesOnly env ty nm proj fs) hA hB
  · exact preservesDir_of_writesOnly
      (install_multiple_writesOnly env ty proj force names fs) hA hB
  · cases hl : w.level_user with
    | false =>
      rw [hl] at hwf
      simp only [Bool.false_eq_true, if_false] at hwf
      exact preservesDir_of_writesOnly hwf hA hB
    | true =>
      rw [hl] at hwf
      simp only [if_true] at hwf
      exact preservesDir_of_writesOnly hwf hC hD

/-- Witness for C8 at a concrete environment whose extensions and claude
directories are incomparable. -/
theorem c8_witness :
    writesOnlyUnder (get_claude_dir envW none) fsW1
      (install_extension envW "a" "x" none false fsW1).2 ∧
    writesOnlyUnder (get_claude_dir envW none) fsW1
      (uninstall_extension envW "a" "x" none fsW1).2 ∧
    writesOnlyUnder (get_claude_dir envW none) fsW1
      (install_multiple_extensions envW "a" ["x"] none false fsW1).2 ∧
    writesOnlyUnder (get_claude_dir envW
        (if (WorkflowDef.mk false (some "x") [] []).level_user then none else none)) fsW1
      (install_workflow envW (some (WorkflowDef.mk false (some "x") [] [])) none false fsW1).2 ∧
    preservesDir (get_extensions_dir envW) fsW1
      (install_extension envW "a" "x" none false fsW1).2 ∧
    preservesDir (get_extensions_dir envW) fsW1
      (uninstall_extension envW "a" "x" none fsW1).2 ∧
    preservesDir (get_extensions_dir envW) fsW1
      (install_multiple_extensions envW "a" ["x"] none false fsW1).2 ∧
    preservesDir (get_extensions_dir envW) fsW1
      (install_workflow envW (some (WorkflowDef.mk false (some "x") [] [])) none false fsW1).2 :=
  c8_frame envW "a" "x" none false fsW1 (WorkflowDef.mk false (some "x") [] []) ["x"]
    (by decide) (by decide) (by decide) (by decide)

theorem install_multiple_partition (env : Env) (ty : String)
    (proj : Option Path) (force : Bool) :
    ∀ (names : List String) (fs : FS),
      List.Sublist (install_multiple_extensions env ty names proj force fs).1.1 names ∧
      List.Sublist (install_multiple_extensions env ty names proj force fs).1.2 names ∧
      (install_multiple_extensions env ty names proj force fs).1.1.length +
        (install_multiple_extensions env ty names proj force fs).1.2.length
        = names.length ∧
      ∀ n, (install_multiple_extensions env ty names proj force fs).1.1.count n +
        (install_multiple_extensions env ty names proj force fs).1.2.count n
        = names.count n
  | [], fs => by simp [install_multiple_extensions]
  | name :: rest, fs => by
    simp only [install_multiple_extensions]
    by_cases hs : (fs (get_extensions_dir env ++ [ty ++ "s", name ++ ".md"])).isNone = true
    · simp only [hs, if_true]
      obtain ⟨ih1, ih2, ih3, ih4⟩ := install_multiple_partition env ty proj force rest fs
      refine ⟨ih1.cons _, ih2.cons₂ _, ?_, ?_⟩
      · simp only [List.length_cons]
        omega
      · intro n
        have hn := ih4 n
        simp only [List.count_cons]
        omega
    · simp only [hs, Bool.false_eq_true, if_false]
      by_cases hb : ((fs (get_claude_dir env proj ++ [ty ++ "s", name ++ ".md"])).isSome
          && !force) = true
      · simp only [hb, if_true]
        obtain ⟨ih1, ih2, ih3, ih4⟩ := install_multiple_partition env ty proj force rest fs
        refine ⟨ih1.cons _, ih2.cons₂ _, ?_, ?_⟩
        · simp only [List.length_cons]
          omega
        · intro n
          have hn := ih4 n
          simp only [List.count_cons]
          omega
      · have hb0 : ((fs (get_claude_dir env proj ++ [ty ++ "s", name ++ ".md"])).isSome
            && !force) = false := by simpa using hb
        simp only [hb0, Bool.false_eq_true, if_false]
        obtain ⟨ih1, ih2, ih3, ih4⟩ :=
          install_multiple_partition env ty proj force rest
            (fsWrite fs (get_claude_dir env proj ++ [ty ++ "s", name ++ ".md"])
              (fs (get_extensions_dir env ++ [ty ++ "s", name ++ ".md"])))
        refine ⟨ih1.cons₂ _, ih2.cons _, ?_, ?_⟩
        · simp only [List.length_cons]
          omega
        · intro n
          have hn := ih4 n
          simp only [List.count_cons]
          omega

/-- C9: install_multiple_extensions splits the input names into the
successful and the failed list: each list is an in-order subsequence of
the input, their lengths sum to the input length, and every occurrence of
a name lands in exactly one of the two lists, so the failure of one name never
stops the remaining names from being attempted. -/
theorem c9_multiple_partition_exact (env : Env) (ty : String)
    (names : List String) (proj : Option Path) (force : Bool) (fs : FS) :
    List.Sublist (install_multiple_extensions env ty names proj force fs).1.1 names ∧
    List.Sublist (install_multiple_extensions env ty names proj force fs).1.2 names ∧
    (install_multiple_extensions env ty names proj force fs).1.1.length +
      (install_multiple_extensions env ty names proj force fs).1.2.length
      = names.length ∧
    ∀ n, (install_multiple_extensions env ty names proj force fs).1.1.count n +
      (install_multiple_extensions env ty names proj force fs).1.2.count n
      = names.count n :=
  install_multiple_partition env ty proj force names fs

/-- C10: with the source present and the target initially absent,
install followed by uninstall of the same extension at the same level
restores the initial state: the target file is absent, the
installed-check is false again, and every file holds its initial
content. -/
theorem c10_install_uninstall_roundtrip (env : Env) (ty nm : String)
    (proj : Option Path) (force : Bool) (fs : FS) (c : String)
    (hsrc : fs (get_extensions_dir env ++ [ty ++ "s", nm ++ ".md"]) = some c)
    (htgt : fs (get_claude_dir env proj ++ [ty ++ "s", nm ++ ".md"]) = none) :
    (uninstall_extension env ty nm proj
        (install_extension env ty nm proj force fs).2).2
      (get_claude_dir env proj ++ [ty ++ "s", nm ++ ".md"]) = none ∧
    check_extension_exists env ty nm proj
      (uninstall_extension env ty nm proj
        (install_extension env ty nm proj force fs).2).2 = false ∧
    ∀ p, (uninstall_extension env ty nm proj
      (install_extension env ty nm proj force fs).2).2 p = fs p := by
  have hcond : ((fs (get_claude_dir env proj ++ [ty ++ "s", nm ++ ".md"])).isSome
      && !force) = false := by simp [htgt]
  have h1 : (install_extension env ty nm proj force fs).2
      = fsWrite fs (get_claude_dir env proj ++ [ty ++ "s", nm ++ ".md"]) (some c) := by
    simp [install_extension, hsrc, hcond]
  rw [h1]
  have h3 : (uninstall_extension env ty nm proj
      (fsWrite fs (get_claude_dir env proj ++ [ty ++ "s", nm ++ ".md"]) (some c))).2
      = fsWrite (fsWrite fs (get_claude_dir env proj ++ [ty ++ "s", nm ++ ".md"]) (some c))
          (get_claude_dir env proj ++ [ty ++ "s", nm ++ ".md"]) none := by
    simp [uninstall_extension, fsWrite]
  rw [h3]
  refine ⟨?_, ?_, ?_⟩
  · simp [fsWrite]
  · simp [check_extension_exists, fsWrite]
  · intro p
    by_cases hp : p = get_claude_dir env proj ++ [ty ++ "s", nm ++ ".md"]
    · subst hp
      simp [fsWrite, htgt]
    · simp [fsWrite, hp]

/-- Witness for C10 on a concrete one-file filesystem. -/
theorem c10_witness :
    (uninstall_extension envW "a" "x" none
        (install_extension envW "a" "x" none false fsW1).2).2
      (get_claude_dir envW none ++ ["a" ++ "s", "x" ++ ".md"]) = none ∧
    check_extension_exists envW "a" "x" none
      (uninstall_extension envW "a" "x" none
        (install_extension envW "a" "x" none false fsW1).2).2 = false ∧
    ∀ p, (uninstall_extension envW "a" "x" none
      (install_extension envW "a" "x" none false fsW1).2).2 p = fsW1 p :=
  c10_install_uninstall_roundtrip envW "a" "x" none false fsW1 "c"
    (by decide) (by decide)

end ExtMgr

